import Mathlib

/-!
# MojoSci benchmark sources: generator, fill/timing harness, clock probe, rotl test

Shallow embedding of

* `src/bench/eigen.cpp`  (SplitMix64 `next()` and the five benchmark sections of `main`),
* `src/bench/res.cpp`    (clock resolution probe),
* `src/test/xoshiro_orig/rotate_left.c` (`rotl` and its one-line test).

`uint64_t` values are natural numbers reduced `% 2 ^ 64` wherever the C arithmetic can wrap.
The benchmark `main` is stateful; it is embedded as a function on `State`, which carries the
generator word `x` and the ordered list of observable actions performed so far.
-/

namespace MojoSci

/-! ## Generator (`src/bench/eigen.cpp`, lines 24-32) -/

/-- The generator word `static uint64_t x;`, zero-initialised at program start. -/
def x0 : Nat := 0

/-- One call of `next()`: the returned value and the new content of the static word `x`.
Each `let` is one source line; `+` and `*` wrap modulo `2 ^ 64`. -/
def next (x : Nat) : Nat × Nat :=
  let x := (x + 0x9e3779b97f4a7c15) % 2 ^ 64
  let z := x
  let z := ((z ^^^ (z >>> 30)) * 0xbf58476d1ce4e5b9) % 2 ^ 64
  let z := ((z ^^^ (z >>> 27)) * 0x94d049bb133111eb) % 2 ^ 64
  (z ^^^ (z >>> 31), x)

/-- Result of `N` successive calls of `next()` starting from state `x`: the values returned,
in call order, and the state reached after them. -/
def drawSeq : Nat → Nat → List Nat × Nat
  | 0, x => ([], x)
  | N + 1, x =>
    let r := next x
    let rest := drawSeq N r.2
    (r.1 :: rest.1, rest.2)

/-- State word after `k` calls of `next()` from state `x`. -/
def advance (x : Nat) (k : Nat) : Nat := (fun s => (next s).2)^[k] x

/-- Value returned by the `k`-th call of `next()` (counted from 1) from state `x`. -/
def drawNo (x : Nat) : Nat → Nat
  | 0 => 0
  | k + 1 => (next (advance x k)).1

/-- Steps 2-5 of the generator algorithm as the specification words them: the output mixing
applied to a state word. -/
def specMix (z1 : Nat) : Nat :=
  let z2 := ((z1 ^^^ (z1 >>> 30)) * 0xBF58476D1CE4E5B9) % 2 ^ 64
  let z3 := ((z2 ^^^ (z2 >>> 27)) * 0x94D049BB133111EB) % 2 ^ 64
  z3 ^^^ (z3 >>> 31)

/-! ## Rotation test (`src/test/xoshiro_orig/rotate_left.c`) -/

/-- The function `rotl(x, k)` on `uint64_t`: `(x << k) | (x >> (64 - k))`; the left shift is
truncated to 64 bits. -/
def rotl (x : Nat) (k : Nat) : Nat :=
  ((x <<< k) % 2 ^ 64) ||| (x >>> (64 - k))

/-- The call `printf("%llx\n", v)`: lower-case hexadecimal digits, no `0x` in front, then a
newline. -/
def printf_llx (v : Nat) : String :=
  String.mk (Nat.toDigits 16 v) ++ "\n"

/-- Output of `main` in `rotate_left.c`. -/
def rotate_left_main : String :=
  printf_llx (rotl 123456789 3)

/-! ## Benchmark harness (`src/bench/eigen.cpp`, lines 34-187) -/

/-- The constant `const int reps = 1e6;`. -/
def reps : Nat := 1000000

/-- Observable actions of the harness, recorded in program order. -/
inductive Event where
  /-- a call of `next()` that returned `v` -/
  | draw (v : Nat)
  /-- the assignment `matA(i, j) = v` on the `n × n` matrix of the running section; `v` is the
  drawn 64-bit value, recorded before its conversion to `double` -/
  | setA (n i j v : Nat)
  /-- the assignment `matB(i, j) = v` on the `n × n` matrix of the running section -/
  | setB (n i j v : Nat)
  /-- the clock sample `auto start = std::chrono::high_resolution_clock::now();` -/
  | start
  /-- the clock sample `auto end = std::chrono::high_resolution_clock::now();` -/
  | stop
  /-- the multiply `matC = matA * matB;` on `n × n` matrices -/
  | mul (n : Nat)
  /-- the `std::cout` line of the `n × n` section -/
  | report (n : Nat)
  deriving DecidableEq

/-- Program state: the static generator word and the actions performed so far. -/
structure State where
  x : Nat
  trace : List Event
  deriving DecidableEq

/-- Perform one observable action. -/
def State.emit (st : State) (e : Event) : State :=
  { st with trace := st.trace ++ [e] }

/-- Call `next()` in state `st`: the value returned and the state after the call. -/
def State.callNext (st : State) : Nat × State :=
  let r := next st.x
  (r.1, { x := r.2, trace := st.trace ++ [Event.draw r.1] })

/-- The loop `for (int i = 0; i != n; ++i) body(i)`. -/
def forLoop (n : Nat) (body : Nat → State → State) (st : State) : State :=
  (List.range n).foldl (fun acc i => body i acc) st

/-- The fill loop nest of a section of dimension `n`:
`for i, for j: matA(i, j) = next(); matB(i, j) = next();`. -/
def fill (n : Nat) (st : State) : State :=
  forLoop n (fun i st =>
    forLoop n (fun j st =>
      let a := st.callNext
      let st := a.2.emit (Event.setA n i j a.1)
      let b := st.callNext
      b.2.emit (Event.setB n i j b.1)) st) st

/-- Section shape of the 2x2 and 16x16 blocks: fill, `start`, `R` multiplies, `end`, report. -/
def sectionOnce (n R : Nat) (st : State) : State :=
  let st := fill n st
  let st := st.emit Event.start
  let st := forLoop R (fun _ st => st.emit (Event.mul n)) st
  let st := st.emit Event.stop
  st.emit (Event.report n)

/-- Section shape of the 3x3, 4x4 and 8x8 blocks: `R` times (fill, `start`, one multiply,
`end`), then report. -/
def sectionEach (n R : Nat) (st : State) : State :=
  let st := forLoop R (fun _ st =>
    let st := fill n st
    let st := st.emit Event.start
    let st := st.emit (Event.mul n)
    st.emit Event.stop) st
  st.emit (Event.report n)

/-- Lines 36-64. -/
def section2 (R : Nat) (st : State) : State := sectionOnce 2 R st

/-- Lines 66-94. -/
def section3 (R : Nat) (st : State) : State := sectionEach 3 R st

/-- Lines 96-124. -/
def section4 (R : Nat) (st : State) : State := sectionEach 4 R st

/-- Lines 126-154. -/
def section8 (R : Nat) (st : State) : State := sectionEach 8 R st

/-- Lines 156-184. -/
def section16 (R : Nat) (st : State) : State := sectionOnce 16 R st

/-- The harness `main` with repetition count `R` (the source fixes `R = reps`). -/
def main (R : Nat) (st : State) : State :=
  let st := section2 R st
  let st := section3 R st
  let st := section4 R st
  let st := section8 R st
  section16 R st

/-- State of the process when `main` is entered. -/
def initState : State := { x := x0, trace := [] }

/-! ### Trace observers -/

/-- Values returned by the generator calls of a trace, in order. -/
def drawsOf : List Event → List Nat
  | [] => []
  | Event.draw v :: t => v :: drawsOf t
  | _ :: t => drawsOf t

/-- Number of assignments to cell `(i, j)` of the `n × n` matrix A in a trace. -/
def writesA (n i j : Nat) : List Event → Nat
  | [] => 0
  | Event.setA n' i' j' _ :: t =>
    (if n' = n ∧ i' = i ∧ j' = j then 1 else 0) + writesA n i j t
  | _ :: t => writesA n i j t

/-- Number of assignments to cell `(i, j)` of the `n × n` matrix B in a trace. -/
def writesB (n i j : Nat) : List Event → Nat
  | [] => 0
  | Event.setB n' i' j' _ :: t =>
    (if n' = n ∧ i' = i ∧ j' = j then 1 else 0) + writesB n i j t
  | _ :: t => writesB n i j t

/-- Number of multiplies in a trace. -/
def mulsOf : List Event → Nat
  | [] => 0
  | Event.mul _ :: t => 1 + mulsOf t
  | _ :: t => mulsOf t

/-- Scan of a trace for timed regions. `cur = some r` means a `start` sample is open and `r`
holds the actions seen since; a `stop` closes the region. Actions after an unmatched `start`
are not a region. -/
def regionsFrom : Option (List Event) → List Event → List (List Event)
  | _, [] => []
  | _, Event.start :: t => regionsFrom (some []) t
  | some r, Event.stop :: t => r :: regionsFrom none t
  | none, Event.stop :: t => regionsFrom none t
  | some r, e :: t => regionsFrom (some (r ++ [e])) t
  | none, _ :: t => regionsFrom none t

/-- The timed regions of a trace: for each `start` sample and its matching `stop` sample, the
actions performed between them. -/
def timedRegions (t : List Event) : List (List Event) := regionsFrom none t

/-- Scanner state of `regionsFrom` after a trace has been read. -/
def scanAfter : Option (List Event) → List Event → Option (List Event)
  | s, [] => s
  | _, Event.start :: t => scanAfter (some []) t
  | _, Event.stop :: t => scanAfter none t
  | some r, e :: t => scanAfter (some (r ++ [e])) t
  | none, _ :: t => scanAfter none t

/-! ### Expected trace shapes -/

/-- The actions a program fragment performs when started with generator word `x`. -/
def eventsOf (f : State → State) (x : Nat) : List Event :=
  (f { x := x, trace := [] }).trace

/-- The four actions for cell `(i, j)` when `d` draws precede them since state `x`: draw number
`d + 1` is stored in `matA(i, j)` and draw number `d + 2` in `matB(i, j)`. -/
def cellEvents (n i j x d : Nat) : List Event :=
  [Event.draw (drawNo x (d + 1)), Event.setA n i j (drawNo x (d + 1)),
   Event.draw (drawNo x (d + 2)), Event.setB n i j (drawNo x (d + 2))]

/-- Row-major fill with A and B interleaved, as the specification words it: cell `(i, j)` is
served after `2 * (i * n + j)` earlier draws of the same fill. -/
def fillTrace (n x : Nat) : List Event :=
  (List.range n).flatMap (fun i =>
    (List.range n).flatMap (fun j => cellEvents n i j x (2 * (i * n + j))))

/-- Policy A of the specification: one fill, one timed region holding all `R` multiplies. -/
def policyATrace (n R x : Nat) : List Event :=
  fillTrace n x ++ [Event.start] ++ List.replicate R (Event.mul n) ++
    [Event.stop, Event.report n]

/-- Policy B of the specification: `R` rounds of fill and a timed region with one multiply. -/
def policyBTrace (n R x : Nat) : List Event :=
  (List.range R).flatMap (fun r =>
    fillTrace n (advance x (2 * n * n * r)) ++ [Event.start, Event.mul n, Event.stop]) ++
    [Event.report n]

/-- The generator calls and matrix assignments of a trace, in order. -/
def fillActions : List Event → List Event
  | [] => []
  | Event.draw v :: t => Event.draw v :: fillActions t
  | Event.setA n i j v :: t => Event.setA n i j v :: fillActions t
  | Event.setB n i j v :: t => Event.setB n i j v :: fillActions t
  | _ :: t => fillActions t

/-! ## Clock resolution probe (`src/bench/res.cpp`) -/

/-- Modelled from the spec: `std::chrono::duration_cast<nanoseconds>` is library code outside
`src/`. It converts `count` ticks of period `num / den` seconds to whole nanoseconds: the
conversion factor is `(num / den) / (1 / 10^9)` in lowest terms and the integer division
truncates toward zero. -/
def duration_cast_nanoseconds (num den : Nat) (count : Int) : Int :=
  let g := Nat.gcd (num * 1000000000) den
  let cfNum := num * 1000000000 / g
  let cfDen := den / g
  if cfNum = 1 ∧ cfDen = 1 then count
  else if cfDen = 1 then count * (cfNum : Int)
  else if cfNum = 1 then Int.tdiv count (cfDen : Int)
  else Int.tdiv (count * (cfNum : Int)) (cfDen : Int)

/-- The value `resolution` of the probe's `main` for a clock whose tick period is `num / den`
seconds: `duration_cast<nanoseconds>(Clock::duration(1)).count()`. -/
def resolution (num den : Nat) : Int :=
  duration_cast_nanoseconds num den 1

/-! ## Generator: basic facts -/

theorem next_fst (x : Nat) : (next x).1 = specMix ((x + 0x9E3779B97F4A7C15) % 2 ^ 64) := rfl

theorem next_snd (x : Nat) : (next x).2 = (x + 0x9E3779B97F4A7C15) % 2 ^ 64 := rfl

/-- C1: a Generator whose state word is 0, the zero-initialised static state the program
starts with, returns `0xE220A8397B1DCDAF` from its first call of `next()`. -/
theorem C1_first_draw_from_zero :
    x0 = 0 ∧ (next x0).1 = 0xE220A8397B1DCDAF ∧ (drawSeq 1 x0).1 = [0xE220A8397B1DCDAF] := by
  decide

/-- C5: `rotl(123456789, 3)` on a 64-bit word equals `0x3ADE68A8`, which is 987654312, and the
test program prints it as the hexadecimal string `3ade68a8`. -/
theorem C5_rotl_reference :
    rotl 123456789 3 = 0x3ADE68A8 ∧ rotl 123456789 3 = 987654312 ∧
      rotate_left_main = "3ade68a8\n" := by
  decide

/-- Concrete run of the 2x2 section with two repetitions from the zero state: eight draws fill
A and B cell by cell, then one timed region holds both multiplies. -/
theorem section2_run_example :
    eventsOf (section2 2) 0 =
      [Event.draw 16294208416658607535, Event.setA 2 0 0 16294208416658607535,
       Event.draw 7960286522194355700, Event.setB 2 0 0 7960286522194355700,
       Event.draw 487617019471545679, Event.setA 2 0 1 487617019471545679,
       Event.draw 17909611376780542444, Event.setB 2 0 1 17909611376780542444,
       Event.draw 1961750202426094747, Event.setA 2 1 0 1961750202426094747,
       Event.draw 6038094601263162090, Event.setB 2 1 0 6038094601263162090,
       Event.draw 3207296026000306913, Event.setA 2 1 1 3207296026000306913,
       Event.draw 14232521865600346940, Event.setB 2 1 1 14232521865600346940,
       Event.start, Event.mul 2, Event.mul 2, Event.stop, Event.report 2] ∧
    timedRegions (eventsOf (section3 2) 0) = [[Event.mul 3], [Event.mul 3]] ∧
    (eventsOf (section3 1) 0).length = 40 := by
  decide

attribute [irreducible] next

theorem specMix_lt (z : Nat) : specMix z < 2 ^ 64 := by
  unfold specMix
  have h3 : ((((z ^^^ (z >>> 30)) * 0xBF58476D1CE4E5B9) % 2 ^ 64 ^^^
      (((z ^^^ (z >>> 30)) * 0xBF58476D1CE4E5B9) % 2 ^ 64) >>> 27) * 0x94D049BB133111EB) % 2 ^ 64
      < 2 ^ 64 := Nat.mod_lt _ (by norm_num)
  apply Nat.xor_lt_two_pow h3
  exact lt_of_le_of_lt (by rw [Nat.shiftRight_eq_div_pow]; exact Nat.div_le_self _ _) h3

theorem advance_zero (x : Nat) : advance x 0 = x := rfl

theorem advance_succ (x k : Nat) : advance x (k + 1) = (next (advance x k)).2 := by
  unfold advance
  exact Function.iterate_succ_apply' _ _ _

theorem advance_add (x a b : Nat) : advance x (a + b) = advance (advance x a) b := by
  unfold advance
  rw [Nat.add_comm, Function.iterate_add_apply]

theorem advance_lt (x k : Nat) : advance x (k + 1) < 2 ^ 64 := by
  rw [advance_succ, next_snd]
  exact Nat.mod_lt _ (by norm_num)

theorem advance_one (x : Nat) : advance x 1 = (next x).2 := by
  rw [advance_succ, advance_zero]

theorem advance_closed_succ (x k : Nat) :
    advance x (k + 1) = (x + (k + 1) * 0x9E3779B97F4A7C15) % 2 ^ 64 := by
  induction k with
  | zero => rw [advance_succ, advance_zero, next_snd, Nat.zero_add, Nat.one_mul]
  | succ k ih =>
    rw [advance_succ, ih, next_snd, Nat.mod_add_mod]
    congr 1
    ring

theorem advance_closed (x k : Nat) (hx : x < 2 ^ 64) :
    advance x k = (x + k * 0x9E3779B97F4A7C15) % 2 ^ 64 := by
  cases k with
  | zero => rw [advance_zero, Nat.zero_mul, Nat.add_zero, Nat.mod_eq_of_lt hx]
  | succ k => exact advance_closed_succ x k

theorem drawNo_succ (x k : Nat) : drawNo x (k + 1) = specMix (advance x (k + 1)) := by
  rw [advance_succ, next_snd, drawNo, next_fst]

theorem drawNo_advance (x a b : Nat) : drawNo (advance x a) (b + 1) = drawNo x (a + b + 1) := by
  rw [drawNo_succ, drawNo_succ, ← advance_add, Nat.add_assoc]

theorem drawSeq_snd (N x : Nat) : (drawSeq N x).2 = advance x N := by
  induction N generalizing x with
  | zero => rw [drawSeq, advance_zero]
  | succ N ih =>
    rw [drawSeq]
    simp only []
    rw [ih, Nat.add_comm N 1, advance_add, advance_one]

theorem drawNo_one (x : Nat) : drawNo x 1 = (next x).1 := by
  have h := drawNo_succ x 0
  rw [Nat.zero_add, advance_one, next_snd] at h
  rw [h, next_fst]

theorem drawSeq_fst (N x : Nat) :
    (drawSeq N x).1 = (List.range N).map (fun k => drawNo x (k + 1)) := by
  induction N generalizing x with
  | zero => rw [drawSeq]; rfl
  | succ N ih =>
    rw [drawSeq]
    simp only []
    rw [ih, List.range_succ_eq_map, List.map_cons, List.map_map, Nat.zero_add, drawNo_one]
    have e : (List.map (fun k => drawNo (next x).2 (k + 1)) (List.range N)) =
        (List.map ((fun k => drawNo x (k + 1)) ∘ Nat.succ) (List.range N)) := by
      apply List.map_congr_left
      intro k _
      rw [Function.comp_apply, Nat.succ_eq_add_one, ← advance_one x, drawNo_advance,
        Nat.add_comm 1 k]
    rw [e]

/-! ## Generator: the output mixing is injective on 64-bit words -/

theorem shiftRight_xor (a b k : Nat) : (a ^^^ b) >>> k = (a >>> k) ^^^ (b >>> k) := by
  apply Nat.eq_of_testBit_eq
  intro i
  simp

theorem xorshift_inj (k : Nat) (hk : 0 < k) (a b : Nat)
    (h : a ^^^ (a >>> k) = b ^^^ (b >>> k)) : a = b := by
  have h1 : (a ^^^ b) ^^^ ((a ^^^ b) >>> k) = 0 := by
    rw [shiftRight_xor]
    have : a ^^^ b ^^^ (a >>> k ^^^ b >>> k) = (a ^^^ (a >>> k)) ^^^ (b ^^^ (b >>> k)) := by
      apply Nat.eq_of_testBit_eq
      intro i
      simp only [Nat.testBit_xor]
      cases a.testBit i <;> cases b.testBit i <;> cases (a >>> k).testBit i <;>
        cases (b >>> k).testBit i <;> rfl
    rw [this, h]
    exact Nat.xor_self _
  have h2 : a ^^^ b = (a ^^^ b) >>> k := Nat.xor_eq_zero.mp h1
  rw [Nat.shiftRight_eq_div_pow] at h2
  by_contra hne
  have hpos : 0 < a ^^^ b := by
    rcases Nat.eq_zero_or_pos (a ^^^ b) with h0 | h0
    · exact absurd (Nat.xor_eq_zero.mp h0) hne
    · exact h0
  have hlt : (a ^^^ b) / 2 ^ k < a ^^^ b :=
    Nat.div_lt_self hpos (Nat.one_lt_two_pow (Nat.pos_iff_ne_zero.mp hk))
  omega

theorem mulmod_inj (c : Nat) (hc : Nat.gcd (2 ^ 64) c = 1) (a b : Nat)
    (ha : a < 2 ^ 64) (hb : b < 2 ^ 64) (h : a * c % 2 ^ 64 = b * c % 2 ^ 64) : a = b := by
  have h1 : a ≡ b [MOD 2 ^ 64] := Nat.ModEq.cancel_right_of_coprime hc h
  unfold Nat.ModEq at h1
  rwa [Nat.mod_eq_of_lt ha, Nat.mod_eq_of_lt hb] at h1

theorem xorshift_lt (z k : Nat) (hz : z < 2 ^ 64) : z ^^^ (z >>> k) < 2 ^ 64 := by
  apply Nat.xor_lt_two_pow hz
  exact lt_of_le_of_lt (by rw [Nat.shiftRight_eq_div_pow]; exact Nat.div_le_self _ _) hz

theorem specMix_inj (a b : Nat) (ha : a < 2 ^ 64) (hb : b < 2 ^ 64)
    (h : specMix a = specMix b) : a = b := by
  unfold specMix at h
  have h3 := xorshift_inj 31 (by norm_num) _ _ h
  have h2 := mulmod_inj 0x94D049BB133111EB (by norm_num) _ _
    (xorshift_lt _ 27 (Nat.mod_lt _ (by norm_num))) (xorshift_lt _ 27 (Nat.mod_lt _ (by norm_num))) h3
  have h2' := xorshift_inj 27 (by norm_num) _ _ h2
  have h1 := mulmod_inj 0xBF58476D1CE4E5B9 (by norm_num) _ _
    (xorshift_lt _ 30 ha) (xorshift_lt _ 30 hb) h2'
  exact xorshift_inj 30 (by norm_num) _ _ h1

attribute [irreducible] advance drawNo specMix

/-! ## Generator: claims -/

/-- C2: for every state `s`, one call of `next()` leaves the state equal to
`s' = (s + 0x9E3779B97F4A7C15) mod 2^64` and returns `z3 XOR (z3 >> 31)` with `z1 = s'`,
`z2 = ((z1 XOR (z1 >> 30)) * 0xBF58476D1CE4E5B9) mod 2^64` and
`z3 = ((z2 XOR (z2 >> 27)) * 0x94D049BB133111EB) mod 2^64`. The value is mixed from the new
state, and the call always yields a 64-bit value and a 64-bit state. -/
theorem C2_next_contract (s : Nat) :
    (next s).2 = (s + 0x9E3779B97F4A7C15) % 2 ^ 64 ∧
    (next s).1 =
      (let z1 := (next s).2
       let z2 := ((z1 ^^^ (z1 >>> 30)) * 0xBF58476D1CE4E5B9) % 2 ^ 64
       let z3 := ((z2 ^^^ (z2 >>> 27)) * 0x94D049BB133111EB) % 2 ^ 64
       z3 ^^^ (z3 >>> 31)) ∧
    (next s).1 < 2 ^ 64 ∧ (next s).2 < 2 ^ 64 := by
  refine ⟨next_snd s, ?_, ?_, ?_⟩
  · rw [next_fst, next_snd, specMix]
  · rw [next_fst]
    exact specMix_lt _
  · rw [next_snd]
    exact Nat.mod_lt _ (by norm_num)

/-- C3: the first `N` values returned by `next()` and the state reached after them depend only
on the initial state word and `N`. Two generators started from the same state word produce the
same sequence term for term, the sequence has `N` terms, its `k`-th term is the mixing of
`(s + k * 0x9E3779B97F4A7C15) mod 2^64`, and the state after `N` draws is
`(s + N * 0x9E3779B97F4A7C15) mod 2^64`. -/
theorem C3_determinism (s1 s2 N : Nat) (hs : s1 < 2 ^ 64) (h : s1 = s2) :
    (drawSeq N s1).1 = (drawSeq N s2).1 ∧
    (drawSeq N s1).2 = (drawSeq N s2).2 ∧
    (drawSeq N s1).1.length = N ∧
    (drawSeq N s1).1 =
      (List.range N).map (fun k => specMix ((s1 + (k + 1) * 0x9E3779B97F4A7C15) % 2 ^ 64)) ∧
    (drawSeq N s1).2 = (s1 + N * 0x9E3779B97F4A7C15) % 2 ^ 64 := by
  subst h
  refine ⟨rfl, rfl, ?_, ?_, ?_⟩
  · rw [drawSeq_fst, List.length_map, List.length_range]
  · rw [drawSeq_fst]
    apply List.map_congr_left
    intro k _
    rw [drawNo_succ, advance_closed_succ]
  · rw [drawSeq_snd, advance_closed s1 N hs]

/-- Witness of C3 at state word 0 and two draws. -/
theorem C3_determinism_witness :
    (drawSeq 2 0).1 = (drawSeq 2 0).1 ∧
    (drawSeq 2 0).2 = (drawSeq 2 0).2 ∧
    (drawSeq 2 0).1.length = 2 ∧
    (drawSeq 2 0).1 =
      (List.range 2).map (fun k => specMix ((0 + (k + 1) * 0x9E3779B97F4A7C15) % 2 ^ 64)) ∧
    (drawSeq 2 0).2 = (0 + 2 * 0x9E3779B97F4A7C15) % 2 ^ 64 :=
  C3_determinism 0 0 2 (by norm_num) rfl

/-- C4: no draw may be skipped without changing all subsequent output. For every initial state
word `s`, every draw index `k ≥ 1` and every `j` with `0 < j < 2^64`, the value returned by
draw `k + j` differs from the value returned by draw `k`. -/
theorem C4_skip_changes_output (s k j : Nat) (hk : 1 ≤ k) (hj0 : 0 < j) (hj : j < 2 ^ 64) :
    drawNo s (k + j) ≠ drawNo s k := by
  obtain ⟨k', rfl⟩ : ∃ k', k = k' + 1 := ⟨k - 1, by omega⟩
  intro heq
  have e : k' + 1 + j = (k' + j) + 1 := by omega
  rw [e, drawNo_succ, drawNo_succ] at heq
  have hst := specMix_inj _ _ (advance_lt s (k' + j)) (advance_lt s k') heq
  rw [advance_closed_succ, advance_closed_succ] at hst
  have h1 : (s + (k' + 1) * 0x9E3779B97F4A7C15) + j * 0x9E3779B97F4A7C15 ≡
      (s + (k' + 1) * 0x9E3779B97F4A7C15) + 0 [MOD 2 ^ 64] := by
    have e2 : s + (k' + 1) * 0x9E3779B97F4A7C15 + j * 0x9E3779B97F4A7C15 =
        s + (k' + j + 1) * 0x9E3779B97F4A7C15 := by ring
    have e3 : (s + (k' + 1) * 0x9E3779B97F4A7C15 + j * 0x9E3779B97F4A7C15) % 2 ^ 64 =
        (s + (k' + 1) * 0x9E3779B97F4A7C15 + 0) % 2 ^ 64 := by
      rw [e2, hst]
      exact congrArg (fun t => t % 2 ^ 64) (Nat.add_zero _).symm
    exact e3
  have h2 : j * 0x9E3779B97F4A7C15 ≡ 0 [MOD 2 ^ 64] := Nat.ModEq.add_left_cancel' _ h1
  have h3 : 2 ^ 64 ∣ j * 0x9E3779B97F4A7C15 := (Nat.modEq_zero_iff_dvd).mp h2
  have h4 : 2 ^ 64 ∣ j :=
    (Nat.Coprime.dvd_mul_right (by norm_num : Nat.Coprime (2 ^ 64) 0x9E3779B97F4A7C15)).mp h3
  exact absurd (Nat.le_of_dvd hj0 h4) (Nat.not_le.mpr hj)

/-- Witness of C4: from state word 0 the second draw differs from the first. -/
theorem C4_skip_changes_output_witness : drawNo 0 (1 + 1) ≠ drawNo 0 1 :=
  C4_skip_changes_output 0 1 1 (by norm_num) (by norm_num) (by norm_num)

/-! ## Harness: loops and trace shapes -/

theorem forLoop_succ (n : Nat) (body : Nat → State → State) (st : State) :
    forLoop (n + 1) body st = body n (forLoop n body st) := by
  unfold forLoop
  rw [List.range_succ, List.foldl_append]
  rfl

theorem forLoop_shape (adv : Nat → Nat) (ev : Nat → Nat → List Event)
    (body : Nat → State → State)
    (hb : ∀ i st, body i st = { x := adv st.x, trace := st.trace ++ ev i st.x })
    (n : Nat) (st : State) :
    forLoop n body st =
      { x := adv^[n] st.x,
        trace := st.trace ++ (List.range n).flatMap (fun i => ev i (adv^[i] st.x)) } := by
  induction n with
  | zero => simp [forLoop]
  | succ n ih =>
    rw [forLoop_succ, ih, hb, List.range_succ, List.flatMap_append,
      Function.iterate_succ_apply']
    simp

theorem advance_iterate (m n x : Nat) : (fun y => advance y m)^[n] x = advance x (m * n) := by
  induction n with
  | zero => rw [Nat.mul_zero, advance_zero, Function.iterate_zero, id]
  | succ n ih => rw [Function.iterate_succ_apply', ih, ← advance_add, Nat.mul_succ]

theorem callNext_fst (st : State) : st.callNext.1 = drawNo st.x 1 := by
  rw [drawNo_one]
  rfl

theorem callNext_snd (st : State) :
    st.callNext.2 = { x := advance st.x 1, trace := st.trace ++ [Event.draw (drawNo st.x 1)] } := by
  rw [drawNo_one, advance_one]
  rfl

theorem drawNo_advance_one (x : Nat) : drawNo (advance x 1) 1 = drawNo x 2 :=
  drawNo_advance x 1 0

theorem cellEvents_advance (n i j x a d : Nat) :
    cellEvents n i j (advance x a) d = cellEvents n i j x (a + d) := by
  unfold cellEvents
  rw [drawNo_advance, drawNo_advance x a (d + 1)]
  rfl

theorem cell_step (n i j : Nat) (st : State) :
    (let a := st.callNext
     let st := a.2.emit (Event.setA n i j a.1)
     let b := st.callNext
     b.2.emit (Event.setB n i j b.1)) =
      { x := advance st.x 2, trace := st.trace ++ cellEvents n i j st.x 0 } := by
  simp only [callNext_fst, callNext_snd, State.emit, drawNo_advance_one, ← advance_add,
    cellEvents, List.append_assoc, List.singleton_append, List.cons_append, List.nil_append,
    Nat.zero_add, Nat.reduceAdd]

theorem row_shape (n i : Nat) (st : State) :
    forLoop n (fun j st =>
      let a := st.callNext
      let st := a.2.emit (Event.setA n i j a.1)
      let b := st.callNext
      b.2.emit (Event.setB n i j b.1)) st =
      { x := advance st.x (2 * n),
        trace := st.trace ++ (List.range n).flatMap (fun j => cellEvents n i j st.x (2 * j)) } := by
  rw [forLoop_shape (fun y => advance y 2) (fun j y => cellEvents n i j y 0) _
    (fun j st => cell_step n i j st) n st, advance_iterate]
  simp only [advance_iterate, cellEvents_advance, Nat.add_zero]

theorem fill_shape (n : Nat) (st : State) :
    fill n st = { x := advance st.x (2 * n * n), trace := st.trace ++ fillTrace n st.x } := by
  unfold fill
  rw [forLoop_shape (fun y => advance y (2 * n))
    (fun i y => (List.range n).flatMap (fun j => cellEvents n i j y (2 * j))) _
    (fun i st => row_shape n i st) n st, advance_iterate]
  simp only [advance_iterate, cellEvents_advance, fillTrace]
  have e : ∀ i j, 2 * n * i + 2 * j = 2 * (i * n + j) := by intro i j; ring
  simp only [e]

theorem mulLoop_shape (n R : Nat) (st : State) :
    forLoop R (fun _ st => st.emit (Event.mul n)) st =
      { x := st.x, trace := st.trace ++ List.replicate R (Event.mul n) } := by
  induction R with
  | zero => simp [forLoop]
  | succ R ih =>
    rw [forLoop_succ, ih, List.replicate_succ', State.emit]
    simp

theorem sectionOnce_shape (n R : Nat) (st : State) :
    sectionOnce n R st =
      { x := advance st.x (2 * n * n), trace := st.trace ++ policyATrace n R st.x } := by
  unfold sectionOnce
  simp only [fill_shape, mulLoop_shape]
  simp only [State.emit, policyATrace, List.append_assoc, List.singleton_append,
    List.cons_append, List.nil_append]

theorem round_step (n : Nat) (st : State) :
    (let st := fill n st
     let st := st.emit Event.start
     let st := st.emit (Event.mul n)
     st.emit Event.stop) =
      { x := advance st.x (2 * n * n),
        trace := st.trace ++ (fillTrace n st.x ++ [Event.start, Event.mul n, Event.stop]) } := by
  simp only [fill_shape, State.emit, List.append_assoc, List.singleton_append, List.cons_append,
    List.nil_append]

theorem sectionEach_shape (n R : Nat) (st : State) :
    sectionEach n R st =
      { x := advance st.x (2 * n * n * R), trace := st.trace ++ policyBTrace n R st.x } := by
  unfold sectionEach
  rw [forLoop_shape (fun y => advance y (2 * n * n))
    (fun _ y => fillTrace n y ++ [Event.start, Event.mul n, Event.stop]) _
    (fun _ st => round_step n st) R st, advance_iterate]
  simp only [advance_iterate, State.emit, policyBTrace, List.append_assoc]

theorem eventsOf_sectionOnce (n R x : Nat) :
    eventsOf (sectionOnce n R) x = policyATrace n R x := by
  unfold eventsOf
  rw [sectionOnce_shape]
  exact List.nil_append _

theorem eventsOf_sectionEach (n R x : Nat) :
    eventsOf (sectionEach n R) x = policyBTrace n R x := by
  unfold eventsOf
  rw [sectionEach_shape]
  exact List.nil_append _

theorem eventsOf_fill (n x : Nat) : eventsOf (fill n) x = fillTrace n x := by
  unfold eventsOf
  rw [fill_shape]
  exact List.nil_append _

theorem main_shape (R : Nat) (st : State) :
    main R st =
      { x := advance st.x (520 + 178 * R),
        trace := st.trace ++
          (policyATrace 2 R st.x ++
           (policyBTrace 3 R (advance st.x 8) ++
            (policyBTrace 4 R (advance st.x (8 + 18 * R)) ++
             (policyBTrace 8 R (advance st.x (8 + 50 * R)) ++
              policyATrace 16 R (advance st.x (8 + 178 * R)))))) } := by
  unfold main section2 section3 section4 section8 section16
  simp only [sectionOnce_shape, sectionEach_shape, ← advance_add, List.append_assoc]
  have e1 : 2 * 2 * 2 + 2 * 3 * 3 * R = 8 + 18 * R := by ring
  have e2 : 8 + 18 * R + 2 * 4 * 4 * R = 8 + 50 * R := by ring
  have e3 : 8 + 50 * R + 2 * 8 * 8 * R = 8 + 178 * R := by ring
  have e4 : 8 + 178 * R + 2 * 16 * 16 = 520 + 178 * R := by ring
  have e0 : 2 * 2 * 2 = 8 := rfl
  simp only [e1, e0, e2, e3, e4]

/-! ## Trace observers: composition lemmas -/

theorem drawsOf_append (a b : List Event) : drawsOf (a ++ b) = drawsOf a ++ drawsOf b := by
  induction a with
  | nil => rfl
  | cons e t ih => cases e <;> simp [drawsOf, ih]

theorem writesA_append (n i j : Nat) (a b : List Event) :
    writesA n i j (a ++ b) = writesA n i j a + writesA n i j b := by
  induction a with
  | nil => simp [writesA]
  | cons e t ih => cases e <;> simp [writesA, ih, Nat.add_assoc]

theorem writesB_append (n i j : Nat) (a b : List Event) :
    writesB n i j (a ++ b) = writesB n i j a + writesB n i j b := by
  induction a with
  | nil => simp [writesB]
  | cons e t ih => cases e <;> simp [writesB, ih, Nat.add_assoc]

theorem mulsOf_append (a b : List Event) : mulsOf (a ++ b) = mulsOf a + mulsOf b := by
  induction a with
  | nil => simp [mulsOf]
  | cons e t ih => cases e <;> simp [mulsOf, ih, Nat.add_assoc]

theorem fillActions_append (a b : List Event) :
    fillActions (a ++ b) = fillActions a ++ fillActions b := by
  induction a with
  | nil => rfl
  | cons e t ih => cases e <;> simp [fillActions, ih]

theorem regionsFrom_append (s : Option (List Event)) (a b : List Event) :
    regionsFrom s (a ++ b) = regionsFrom s a ++ regionsFrom (scanAfter s a) b := by
  induction a generalizing s with
  | nil => cases s <;> simp [regionsFrom, scanAfter]
  | cons e t ih => cases e <;> cases s <;> simp [regionsFrom, scanAfter, ih]

theorem scanAfter_append (s : Option (List Event)) (a b : List Event) :
    scanAfter s (a ++ b) = scanAfter (scanAfter s a) b := by
  induction a generalizing s with
  | nil => cases s <;> simp [scanAfter]
  | cons e t ih => cases e <;> cases s <;> simp [scanAfter, ih]

theorem count_flatMap_const (f : List Event → Nat) (hf0 : f [] = 0)
    (hfa : ∀ a b, f (a ++ b) = f a + f b) (ev : Nat → List Event) (c : Nat)
    (h : ∀ r, f (ev r) = c) (R : Nat) : f ((List.range R).flatMap ev) = R * c := by
  induction R with
  | zero => simp [hf0]
  | succ R ih =>
    rw [List.range_succ, List.flatMap_append, hfa, ih]
    simp [h, Nat.succ_mul]

theorem count_flatMap_single (f : List Event → Nat) (hf0 : f [] = 0)
    (hfa : ∀ a b, f (a ++ b) = f a + f b) (ev : Nat → List Event) (i c : Nat)
    (h : ∀ k, f (ev k) = if k = i then c else 0) (n : Nat) :
    f ((List.range n).flatMap ev) = if i < n then c else 0 := by
  induction n with
  | zero => simp [hf0]
  | succ n ih =>
    rw [List.range_succ, List.flatMap_append, hfa, ih]
    simp only [List.flatMap_cons, List.flatMap_nil, List.append_nil, h]
    by_cases h1 : i < n
    · have h2 : n ≠ i := by omega
      have h3 : i < n + 1 := by omega
      simp [h1, h2, h3]
    · by_cases h2 : n = i
      · subst h2
        simp
      · have h3 : ¬ i < n + 1 := by omega
        simp [h1, h2, h3]

theorem drawSeq_add (a b x : Nat) :
    (drawSeq (a + b) x).1 = (drawSeq a x).1 ++ (drawSeq b (advance x a)).1 := by
  rw [drawSeq_fst, drawSeq_fst, drawSeq_fst, List.range_add, List.map_append, List.map_map]
  congr 1
  apply List.map_congr_left
  intro k _
  rw [Function.comp_apply, drawNo_advance]

theorem drawSeq_two (x : Nat) : (drawSeq 2 x).1 = [drawNo x 1, drawNo x 2] := by
  rw [drawSeq_fst]
  rfl

theorem drawsOf_flatMap_range (m : Nat) (ev : Nat → List Event) (x : Nat)
    (h : ∀ i, drawsOf (ev i) = (drawSeq m (advance x (m * i))).1) (n : Nat) :
    drawsOf ((List.range n).flatMap ev) = (drawSeq (m * n) x).1 := by
  induction n with
  | zero => rw [Nat.mul_zero, drawSeq]; rfl
  | succ n ih =>
    rw [List.range_succ, List.flatMap_append, drawsOf_append, ih, Nat.mul_succ, drawSeq_add]
    simp [h]

/-! ## Facts about one fill -/

theorem drawsOf_cellEvents (n i j x d : Nat) :
    drawsOf (cellEvents n i j x d) = [drawNo x (d + 1), drawNo x (d + 2)] := by
  simp [cellEvents, drawsOf]

theorem drawsOf_fillTrace (n x : Nat) : drawsOf (fillTrace n x) = (drawSeq (2 * n * n) x).1 := by
  unfold fillTrace
  apply drawsOf_flatMap_range (2 * n) _ x
  intro i
  apply drawsOf_flatMap_range 2 _ (advance x (2 * n * i))
  intro j
  have e : 2 * n * i + 2 * j = 2 * (i * n + j) := by ring
  rw [drawsOf_cellEvents, drawSeq_two, ← advance_add, e, drawNo_advance _ _ 0,
    drawNo_advance _ _ 1]

theorem writesA_cellEvents (m a b n i j x d : Nat) :
    writesA m a b (cellEvents n i j x d) = if n = m ∧ i = a ∧ j = b then 1 else 0 := by
  simp [cellEvents, writesA]

theorem writesB_cellEvents (m a b n i j x d : Nat) :
    writesB m a b (cellEvents n i j x d) = if n = m ∧ i = a ∧ j = b then 1 else 0 := by
  simp [cellEvents, writesB]

theorem writesA_fillTrace (m a b n x : Nat) :
    writesA m a b (fillTrace n x) = if n = m ∧ a < n ∧ b < n then 1 else 0 := by
  unfold fillTrace
  rw [count_flatMap_single (writesA m a b) rfl (writesA_append m a b) _ a
    (if n = m ∧ b < n then 1 else 0)]
  · split_ifs <;> first | rfl | (exfalso; omega)
  · intro i
    rw [count_flatMap_single (writesA m a b) rfl (writesA_append m a b) _ b
      (if n = m ∧ i = a then 1 else 0)]
    · split_ifs <;> first | rfl | (exfalso; omega)
    · intro j
      rw [writesA_cellEvents]
      split_ifs <;> first | rfl | (exfalso; omega)

theorem writesB_fillTrace (m a b n x : Nat) :
    writesB m a b (fillTrace n x) = if n = m ∧ a < n ∧ b < n then 1 else 0 := by
  unfold fillTrace
  rw [count_flatMap_single (writesB m a b) rfl (writesB_append m a b) _ a
    (if n = m ∧ b < n then 1 else 0)]
  · split_ifs <;> first | rfl | (exfalso; omega)
  · intro i
    rw [count_flatMap_single (writesB m a b) rfl (writesB_append m a b) _ b
      (if n = m ∧ i = a then 1 else 0)]
    · split_ifs <;> first | rfl | (exfalso; omega)
    · intro j
      rw [writesB_cellEvents]
      split_ifs <;> first | rfl | (exfalso; omega)

theorem mem_fillTrace (n x i j : Nat) (hi : i < n) (hj : j < n) (e : Event)
    (he : e ∈ cellEvents n i j x (2 * (i * n + j))) : e ∈ fillTrace n x := by
  unfold fillTrace
  rw [List.mem_flatMap]
  refine ⟨i, List.mem_range.mpr hi, ?_⟩
  rw [List.mem_flatMap]
  exact ⟨j, List.mem_range.mpr hj, he⟩

theorem mulsOf_fillTrace (n x : Nat) : mulsOf (fillTrace n x) = 0 := by
  unfold fillTrace
  rw [count_flatMap_const mulsOf rfl mulsOf_append _ 0]
  · exact Nat.mul_zero _
  · intro i
    rw [count_flatMap_const mulsOf rfl mulsOf_append _ 0]
    · exact Nat.mul_zero _
    · intro j
      simp [cellEvents, mulsOf]

theorem quiet_flatMap (ev : Nat → List Event) (l : List Nat)
    (h : ∀ k, regionsFrom none (ev k) = [] ∧ scanAfter none (ev k) = none) :
    regionsFrom none (l.flatMap ev) = [] ∧ scanAfter none (l.flatMap ev) = none := by
  induction l with
  | nil => simp [regionsFrom, scanAfter]
  | cons k t ih =>
    rw [List.flatMap_cons, regionsFrom_append, scanAfter_append, (h k).1, (h k).2]
    simpa using ih

theorem quiet_fillTrace (n x : Nat) :
    regionsFrom none (fillTrace n x) = [] ∧ scanAfter none (fillTrace n x) = none := by
  unfold fillTrace
  apply quiet_flatMap
  intro i
  apply quiet_flatMap
  intro j
  simp [cellEvents, regionsFrom, scanAfter]

theorem fillActions_flatMap (ev : Nat → List Event) (l : List Nat)
    (h : ∀ k, fillActions (ev k) = ev k) : fillActions (l.flatMap ev) = l.flatMap ev := by
  induction l with
  | nil => rfl
  | cons k t ih => rw [List.flatMap_cons, fillActions_append, h k, ih]

theorem fillActions_fillTrace (n x : Nat) : fillActions (fillTrace n x) = fillTrace n x := by
  unfold fillTrace
  apply fillActions_flatMap
  intro i
  apply fillActions_flatMap
  intro j
  simp [cellEvents, fillActions]

/-! ## Facts about sections -/

theorem fillActions_policyA (n R x : Nat) : fillActions (policyATrace n R x) = fillTrace n x := by
  unfold policyATrace
  rw [fillActions_append, fillActions_append, fillActions_append, fillActions_fillTrace]
  have h : fillActions (List.replicate R (Event.mul n)) = [] := by
    induction R with
    | zero => rfl
    | succ R ih => simp [List.replicate_succ, fillActions, ih]
  rw [h]
  simp [fillActions]

theorem fillActions_policyB (n R x : Nat) :
    fillActions (policyBTrace n R x) =
      (List.range R).flatMap (fun r => fillTrace n (advance x (2 * n * n * r))) := by
  unfold policyBTrace
  rw [fillActions_append]
  have h : ∀ l : List Nat,
      fillActions (l.flatMap (fun r =>
        fillTrace n (advance x (2 * n * n * r)) ++ [Event.start, Event.mul n, Event.stop])) =
      l.flatMap (fun r => fillTrace n (advance x (2 * n * n * r))) := by
    intro l
    induction l with
    | nil => rfl
    | cons k t ih =>
      rw [List.flatMap_cons, List.flatMap_cons, fillActions_append, fillActions_append,
        fillActions_fillTrace, ih]
      simp [fillActions]
  rw [h]
  simp [fillActions]

theorem writesA_replicate_mul (m a b n R : Nat) :
    writesA m a b (List.replicate R (Event.mul n)) = 0 := by
  induction R with
  | zero => rfl
  | succ R ih => simp [List.replicate_succ, writesA, ih]

theorem writesB_replicate_mul (m a b n R : Nat) :
    writesB m a b (List.replicate R (Event.mul n)) = 0 := by
  induction R with
  | zero => rfl
  | succ R ih => simp [List.replicate_succ, writesB, ih]

theorem writesA_policyA (m a b n R x : Nat) :
    writesA m a b (policyATrace n R x) = if n = m ∧ a < n ∧ b < n then 1 else 0 := by
  unfold policyATrace
  rw [writesA_append, writesA_append, writesA_append, writesA_fillTrace, writesA_replicate_mul]
  simp [writesA]

theorem writesB_policyA (m a b n R x : Nat) :
    writesB m a b (policyATrace n R x) = if n = m ∧ a < n ∧ b < n then 1 else 0 := by
  unfold policyATrace
  rw [writesB_append, writesB_append, writesB_append, writesB_fillTrace, writesB_replicate_mul]
  simp [writesB]

theorem writesA_policyB (m a b n R x : Nat) :
    writesA m a b (policyBTrace n R x) = R * if n = m ∧ a < n ∧ b < n then 1 else 0 := by
  unfold policyBTrace
  rw [writesA_append, count_flatMap_const (writesA m a b) rfl (writesA_append m a b) _
    (if n = m ∧ a < n ∧ b < n then 1 else 0)]
  · simp [writesA]
  · intro r
    rw [writesA_append, writesA_fillTrace]
    simp [writesA]

theorem writesB_policyB (m a b n R x : Nat) :
    writesB m a b (policyBTrace n R x) = R * if n = m ∧ a < n ∧ b < n then 1 else 0 := by
  unfold policyBTrace
  rw [writesB_append, count_flatMap_const (writesB m a b) rfl (writesB_append m a b) _
    (if n = m ∧ a < n ∧ b < n then 1 else 0)]
  · simp [writesB]
  · intro r
    rw [writesB_append, writesB_fillTrace]
    simp [writesB]

theorem drawsOf_replicate_mul (n R : Nat) : drawsOf (List.replicate R (Event.mul n)) = [] := by
  induction R with
  | zero => rfl
  | succ R ih => simp [List.replicate_succ, drawsOf, ih]

theorem drawsOf_policyA (n R x : Nat) :
    drawsOf (policyATrace n R x) = (drawSeq (2 * n * n) x).1 := by
  unfold policyATrace
  rw [drawsOf_append, drawsOf_append, drawsOf_append, drawsOf_fillTrace, drawsOf_replicate_mul]
  simp [drawsOf]

theorem drawsOf_policyB (n R x : Nat) :
    drawsOf (policyBTrace n R x) = (drawSeq (2 * n * n * R) x).1 := by
  unfold policyBTrace
  rw [drawsOf_append, drawsOf_flatMap_range (2 * n * n) _ x]
  · simp [drawsOf]
  · intro r
    rw [drawsOf_append, drawsOf_fillTrace]
    simp [drawsOf]

theorem drawSeq_length (N x : Nat) : (drawSeq N x).1.length = N := by
  rw [drawSeq_fst, List.length_map, List.length_range]

/-! ## Timed regions of the two section shapes -/

theorem regions_open_muls (n R : Nat) (r rest : List Event) :
    regionsFrom (some r) (List.replicate R (Event.mul n) ++ rest) =
      regionsFrom (some (r ++ List.replicate R (Event.mul n))) rest := by
  induction R generalizing r with
  | zero => simp
  | succ R ih => simp [List.replicate_succ, regionsFrom, ih]

theorem timedRegions_policyA (n R x : Nat) :
    timedRegions (policyATrace n R x) = [List.replicate R (Event.mul n)] := by
  unfold timedRegions policyATrace
  rw [List.append_assoc, List.append_assoc, regionsFrom_append, (quiet_fillTrace n x).1,
    (quiet_fillTrace n x).2, List.nil_append, List.singleton_append, regionsFrom,
    regions_open_muls]
  simp [regionsFrom]

theorem quiet_round (n y : Nat) :
    regionsFrom none (fillTrace n y ++ [Event.start, Event.mul n, Event.stop]) = [[Event.mul n]] ∧
    scanAfter none (fillTrace n y ++ [Event.start, Event.mul n, Event.stop]) = none := by
  rw [regionsFrom_append, scanAfter_append, (quiet_fillTrace n y).1, (quiet_fillTrace n y).2]
  simp [regionsFrom, scanAfter]

theorem regions_rounds (n x : Nat) (l : List Nat) :
    regionsFrom none (l.flatMap (fun r =>
      fillTrace n (advance x (2 * n * n * r)) ++ [Event.start, Event.mul n, Event.stop])) =
      List.replicate l.length [Event.mul n] ∧
    scanAfter none (l.flatMap (fun r =>
      fillTrace n (advance x (2 * n * n * r)) ++ [Event.start, Event.mul n, Event.stop])) =
      none := by
  induction l with
  | nil => simp [regionsFrom, scanAfter]
  | cons k t ih =>
    have hq := quiet_round n (advance x (2 * n * n * k))
    rw [List.flatMap_cons]
    constructor
    · rw [regionsFrom_append, hq.1, hq.2, ih.1]
      simp [List.replicate_succ]
    · rw [scanAfter_append, hq.2, ih.2]

theorem timedRegions_policyB (n R x : Nat) :
    timedRegions (policyBTrace n R x) = List.replicate R [Event.mul n] := by
  unfold timedRegions policyBTrace
  rw [regionsFrom_append, (regions_rounds n x (List.range R)).1,
    (regions_rounds n x (List.range R)).2, List.length_range]
  simp [regionsFrom]

theorem mulsOf_replicate_mul (n R : Nat) : mulsOf (List.replicate R (Event.mul n)) = R := by
  induction R with
  | zero => rfl
  | succ R ih => simp [List.replicate_succ, mulsOf, ih, Nat.add_comm]

theorem flatten_replicate_single (e : Event) (R : Nat) :
    (List.replicate R [e]).flatten = List.replicate R e := by
  induction R with
  | zero => rfl
  | succ R ih => simp [List.replicate_succ, ih]

theorem mulsOf_policyA (n R x : Nat) : mulsOf (policyATrace n R x) = R := by
  unfold policyATrace
  rw [mulsOf_append, mulsOf_append, mulsOf_append, mulsOf_fillTrace, mulsOf_replicate_mul]
  simp [mulsOf]

theorem mulsOf_policyB (n R x : Nat) : mulsOf (policyBTrace n R x) = R := by
  unfold policyBTrace
  rw [mulsOf_append, count_flatMap_const mulsOf rfl mulsOf_append _ 1]
  · simp [mulsOf]
  · intro r
    rw [mulsOf_append, mulsOf_fillTrace]
    simp [mulsOf]

/-- Timing facts shared by the 2x2 and 16x16 sections. -/
theorem timing_once (n R x : Nat) :
    timedRegions (eventsOf (sectionOnce n R) x) = [List.replicate R (Event.mul n)] ∧
    mulsOf (eventsOf (sectionOnce n R) x) = R ∧
    mulsOf (timedRegions (eventsOf (sectionOnce n R) x)).flatten = R ∧
    drawsOf (timedRegions (eventsOf (sectionOnce n R) x)).flatten = [] := by
  rw [eventsOf_sectionOnce, timedRegions_policyA, mulsOf_policyA]
  simp [mulsOf_replicate_mul, drawsOf_replicate_mul]

/-- Timing facts shared by the 3x3, 4x4 and 8x8 sections. -/
theorem timing_each (n R x : Nat) :
    timedRegions (eventsOf (sectionEach n R) x) = List.replicate R [Event.mul n] ∧
    mulsOf (eventsOf (sectionEach n R) x) = R ∧
    mulsOf (timedRegions (eventsOf (sectionEach n R) x)).flatten = R ∧
    drawsOf (timedRegions (eventsOf (sectionEach n R) x)).flatten = [] := by
  rw [eventsOf_sectionEach, timedRegions_policyB, mulsOf_policyB, flatten_replicate_single]
  simp [mulsOf_replicate_mul, drawsOf_replicate_mul]

/-! ## Harness: claims -/

/-- C6: one fill event of dimension `n` (in particular `n` in 2, 3, 4, 8, 16) makes exactly
`2 * n^2` generator draws, namely the next `2 * n^2` values of the generator, and assigns every
cell of A and every cell of B exactly once, in row-major order with A and B interleaved: cell
`A(i, j)` receives draw number `2 * (i * n + j) + 1` of the fill and `B(i, j)` receives draw
number `2 * (i * n + j) + 2`. -/
theorem C6_fill_coverage (n x i j : Nat) (hi : i < n) (hj : j < n) :
    (∀ t, fill n { x := x, trace := t } =
      { x := (drawSeq (2 * n ^ 2) x).2, trace := t ++ eventsOf (fill n) x }) ∧
    (drawsOf (eventsOf (fill n) x)).length = 2 * n ^ 2 ∧
    drawsOf (eventsOf (fill n) x) = (drawSeq (2 * n ^ 2) x).1 ∧
    eventsOf (fill n) x = fillTrace n x ∧
    writesA n i j (eventsOf (fill n) x) = 1 ∧
    writesB n i j (eventsOf (fill n) x) = 1 ∧
    Event.setA n i j (drawNo x (2 * (i * n + j) + 1)) ∈ eventsOf (fill n) x ∧
    Event.setB n i j (drawNo x (2 * (i * n + j) + 2)) ∈ eventsOf (fill n) x := by
  have e : 2 * n ^ 2 = 2 * n * n := by ring
  rw [eventsOf_fill, e, drawsOf_fillTrace, drawSeq_length, drawSeq_snd, writesA_fillTrace,
    writesB_fillTrace]
  refine ⟨fun t => fill_shape n _, rfl, rfl, rfl, ?_, ?_, ?_, ?_⟩
  · simp [hi, hj]
  · simp [hi, hj]
  · exact mem_fillTrace n x i j hi hj _ (by simp [cellEvents])
  · exact mem_fillTrace n x i j hi hj _ (by simp [cellEvents])

/-- Witness of C6: the 2x2 fill from state word 0, cell `(1, 0)`. -/
theorem C6_fill_coverage_witness :
    (∀ t, fill 2 { x := 0, trace := t } =
      { x := (drawSeq (2 * 2 ^ 2) 0).2, trace := t ++ eventsOf (fill 2) 0 }) ∧
    (drawsOf (eventsOf (fill 2) 0)).length = 2 * 2 ^ 2 ∧
    drawsOf (eventsOf (fill 2) 0) = (drawSeq (2 * 2 ^ 2) 0).1 ∧
    eventsOf (fill 2) 0 = fillTrace 2 0 ∧
    writesA 2 1 0 (eventsOf (fill 2) 0) = 1 ∧
    writesB 2 1 0 (eventsOf (fill 2) 0) = 1 ∧
    Event.setA 2 1 0 (drawNo 0 (2 * (1 * 2 + 0) + 1)) ∈ eventsOf (fill 2) 0 ∧
    Event.setB 2 1 0 (drawNo 0 (2 * (1 * 2 + 0) + 2)) ∈ eventsOf (fill 2) 0 :=
  C6_fill_coverage 2 0 1 0 (by decide) (by decide)

/-- C7: across a run with repetition count `R`, the generator calls and matrix assignments of
the sections for n = 3, 4 and 8 are exactly `R` consecutive fill events (every cell of A and of
B is assigned `R` times), and those of the sections for n = 2 and n = 16 are exactly one fill
event (every cell assigned once) whatever `R` is. -/
theorem C7_policy_fidelity (R x : Nat) :
    (fillActions (eventsOf (section2 R) x) = eventsOf (fill 2) x ∧
      ∀ i j : Fin 2, writesA 2 i j (eventsOf (section2 R) x) = 1 ∧
        writesB 2 i j (eventsOf (section2 R) x) = 1) ∧
    (fillActions (eventsOf (section3 R) x) =
        (List.range R).flatMap (fun r => eventsOf (fill 3) (advance x (18 * r))) ∧
      ∀ i j : Fin 3, writesA 3 i j (eventsOf (section3 R) x) = R ∧
        writesB 3 i j (eventsOf (section3 R) x) = R) ∧
    (fillActions (eventsOf (section4 R) x) =
        (List.range R).flatMap (fun r => eventsOf (fill 4) (advance x (32 * r))) ∧
      ∀ i j : Fin 4, writesA 4 i j (eventsOf (section4 R) x) = R ∧
        writesB 4 i j (eventsOf (section4 R) x) = R) ∧
    (fillActions (eventsOf (section8 R) x) =
        (List.range R).flatMap (fun r => eventsOf (fill 8) (advance x (128 * r))) ∧
      ∀ i j : Fin 8, writesA 8 i j (eventsOf (section8 R) x) = R ∧
        writesB 8 i j (eventsOf (section8 R) x) = R) ∧
    (fillActions (eventsOf (section16 R) x) = eventsOf (fill 16) x ∧
      ∀ i j : Fin 16, writesA 16 i j (eventsOf (section16 R) x) = 1 ∧
        writesB 16 i j (eventsOf (section16 R) x) = 1) := by
  unfold section2 section3 section4 section8 section16
  simp only [eventsOf_sectionOnce, eventsOf_sectionEach, eventsOf_fill, fillActions_policyA,
    fillActions_policyB, writesA_policyA, writesB_policyA, writesA_policyB, writesB_policyB]
  refine ⟨⟨trivial, ?_⟩, ⟨trivial, ?_⟩, ⟨trivial, ?_⟩, ⟨trivial, ?_⟩, ⟨trivial, ?_⟩⟩ <;>
    intro i j <;> simp [i.isLt, j.isLt]

/-- C8: in every section the refill is outside the timed region. No generator draw occurs
between a `start` sample and its matching `stop` sample, each section performs exactly `R`
multiplies and all of them inside timed regions; for n = 3, 4, 8 there are `R` timed regions
holding exactly one multiply each, and for n = 2 and n = 16 there is one timed region holding
all `R` multiplies. -/
theorem C8_timed_regions (R x : Nat) :
    (timedRegions (eventsOf (section2 R) x) = [List.replicate R (Event.mul 2)] ∧
      mulsOf (eventsOf (section2 R) x) = R ∧
      mulsOf (timedRegions (eventsOf (section2 R) x)).flatten = R ∧
      drawsOf (timedRegions (eventsOf (section2 R) x)).flatten = []) ∧
    (timedRegions (eventsOf (section3 R) x) = List.replicate R [Event.mul 3] ∧
      mulsOf (eventsOf (section3 R) x) = R ∧
      mulsOf (timedRegions (eventsOf (section3 R) x)).flatten = R ∧
      drawsOf (timedRegions (eventsOf (section3 R) x)).flatten = []) ∧
    (timedRegions (eventsOf (section4 R) x) = List.replicate R [Event.mul 4] ∧
      mulsOf (eventsOf (section4 R) x) = R ∧
      mulsOf (timedRegions (eventsOf (section4 R) x)).flatten = R ∧
      drawsOf (timedRegions (eventsOf (section4 R) x)).flatten = []) ∧
    (timedRegions (eventsOf (section8 R) x) = List.replicate R [Event.mul 8] ∧
      mulsOf (eventsOf (section8 R) x) = R ∧
      mulsOf (timedRegions (eventsOf (section8 R) x)).flatten = R ∧
      drawsOf (timedRegions (eventsOf (section8 R) x)).flatten = []) ∧
    (timedRegions (eventsOf (section16 R) x) = [List.replicate R (Event.mul 16)] ∧
      mulsOf (eventsOf (section16 R) x) = R ∧
      mulsOf (timedRegions (eventsOf (section16 R) x)).flatten = R ∧
      drawsOf (timedRegions (eventsOf (section16 R) x)).flatten = []) :=
  ⟨timing_once 2 R x, timing_each 3 R x, timing_each 4 R x, timing_each 8 R x,
    timing_once 16 R x⟩

/-! ## Clock resolution probe -/

theorem resolution_eq (num den : Nat) (hd : 0 < den) :
    resolution num den = ((num * 1000000000 / den : Nat) : Int) := by
  unfold resolution duration_cast_nanoseconds
  have hg : 0 < Nat.gcd (num * 1000000000) den := Nat.gcd_pos_of_pos_right _ hd
  obtain ⟨a, ha⟩ := Nat.gcd_dvd_left (num * 1000000000) den
  obtain ⟨b, hb⟩ := Nat.gcd_dvd_right (num * 1000000000) den
  generalize Nat.gcd (num * 1000000000) den = g at hg ha hb
  generalize num * 1000000000 = N at ha
  subst ha hb
  simp only []
  rw [Nat.mul_div_cancel_left a hg, Nat.mul_div_cancel_left b hg, Nat.mul_div_mul_left a b hg]
  split_ifs with h1 h2 h3
  · rw [h1.1, h1.2]
    rfl
  · rw [h2, Nat.div_one, Int.one_mul]
  · rw [h3]
    exact (Int.ofNat_tdiv 1 b).symm
  · rw [Int.one_mul]
    exact (Int.ofNat_tdiv a b).symm

/-- C9 (counterexample): for a clock whose tick period is `1 / 10^10` seconds, a positive
rational, the resolution reported by the probe is 0, not strictly positive. -/
theorem C9_subnanosecond_tick_reports_zero :
    (0 : Nat) < 1 ∧ (0 : Nat) < 10000000000 ∧ resolution 1 10000000000 = 0 ∧
      ¬ (0 < resolution 1 10000000000) := by
  decide

/-- C9 (amended): for every tick period `num / den` seconds the reported resolution is the
integer part of the period in nanoseconds, so it is never negative, and it is strictly positive
exactly when the tick period is at least one nanosecond. -/
theorem C9_resolution_positive_iff (num den : Nat) (hd : 0 < den) :
    resolution num den = ((num * 1000000000 / den : Nat) : Int) ∧
    0 ≤ resolution num den ∧
    (0 < resolution num den ↔ den ≤ num * 1000000000) := by
  rw [resolution_eq num den hd]
  refine ⟨rfl, Int.ofNat_nonneg _, ?_⟩
  rw [Int.ofNat_pos, Nat.div_pos_iff (Nat.pos_iff_ne_zero.mp hd)]

/-- Witness of the amended C9: a clock ticking in nanoseconds reports resolution 1. -/
theorem C9_resolution_positive_iff_witness :
    resolution 1 1000000000 = ((1 * 1000000000 / 1000000000 : Nat) : Int) ∧
    0 ≤ resolution 1 1000000000 ∧
    (0 < resolution 1 1000000000 ↔ 1000000000 ≤ 1 * 1000000000) :=
  C9_resolution_positive_iff 1 1000000000 (by decide)

/-! ## Whole run -/

theorem main_events (R x : Nat) :
    (main R { x := x, trace := [] }).trace =
      policyATrace 2 R x ++
        (policyBTrace 3 R (advance x 8) ++
          (policyBTrace 4 R (advance x (8 + 18 * R)) ++
            (policyBTrace 8 R (advance x (8 + 50 * R)) ++
              policyATrace 16 R (advance x (8 + 178 * R))))) := by
  rw [main_shape]
  exact List.nil_append _

theorem main_final (R x : Nat) :
    (main R { x := x, trace := [] }).x = advance x (520 + 178 * R) := by
  rw [main_shape]

theorem section_eqs (R : Nat) :
    section2 R = sectionOnce 2 R ∧ section3 R = sectionEach 3 R ∧
    section4 R = sectionEach 4 R ∧ section8 R = sectionEach 8 R ∧
    section16 R = sectionOnce 16 R :=
  ⟨rfl, rfl, rfl, rfl, rfl⟩

theorem main_trace (R x : Nat) :
    (main R { x := x, trace := [] }).trace =
      eventsOf (section2 R) x ++
        (eventsOf (section3 R) (advance x 8) ++
          (eventsOf (section4 R) (advance x (8 + 18 * R)) ++
            (eventsOf (section8 R) (advance x (8 + 50 * R)) ++
              eventsOf (section16 R) (advance x (8 + 178 * R))))) := by
  rw [main_events, (section_eqs R).1, (section_eqs R).2.1, (section_eqs R).2.2.1,
    (section_eqs R).2.2.2.1, (section_eqs R).2.2.2.2, eventsOf_sectionOnce,
    eventsOf_sectionOnce, eventsOf_sectionEach, eventsOf_sectionEach, eventsOf_sectionEach]

theorem drawSeq_split (R x : Nat) :
    (drawSeq (520 + 178 * R) x).1 =
      (drawSeq 8 x).1 ++
        ((drawSeq (18 * R) (advance x 8)).1 ++
          ((drawSeq (32 * R) (advance x (8 + 18 * R))).1 ++
            ((drawSeq (128 * R) (advance x (8 + 50 * R))).1 ++
              (drawSeq 512 (advance x (8 + 178 * R))).1))) := by
  have e0 : 520 + 178 * R = 8 + (18 * R + (32 * R + (128 * R + 512))) := by ring
  have e1 : 8 + 18 * R + 32 * R = 8 + 50 * R := by ring
  have e2 : 8 + 50 * R + 128 * R = 8 + 178 * R := by ring
  rw [e0, drawSeq_add, drawSeq_add, ← advance_add, drawSeq_add, ← advance_add, e1, drawSeq_add,
    ← advance_add, e2]

theorem drawsOf_sections (R y : Nat) :
    drawsOf (eventsOf (section2 R) y) = (drawSeq 8 y).1 ∧
    drawsOf (eventsOf (section3 R) y) = (drawSeq (18 * R) y).1 ∧
    drawsOf (eventsOf (section4 R) y) = (drawSeq (32 * R) y).1 ∧
    drawsOf (eventsOf (section8 R) y) = (drawSeq (128 * R) y).1 ∧
    drawsOf (eventsOf (section16 R) y) = (drawSeq 512 y).1 := by
  unfold section2 section3 section4 section8 section16
  simp only [eventsOf_sectionOnce, eventsOf_sectionEach, drawsOf_policyA, drawsOf_policyB]
  simp only [Nat.reduceMul, and_self]

theorem drawsOf_main (R x : Nat) :
    drawsOf (main R { x := x, trace := [] }).trace = (drawSeq (520 + 178 * R) x).1 := by
  rw [main_trace, drawSeq_split, drawsOf_append, drawsOf_append, drawsOf_append, drawsOf_append,
    (drawsOf_sections R _).1, (drawsOf_sections R _).2.1, (drawsOf_sections R _).2.2.1,
    (drawsOf_sections R _).2.2.2.1, (drawsOf_sections R _).2.2.2.2]

theorem writes16_main (R x : Nat) (i j : Fin 16) :
    writesA 16 i j (main R { x := x, trace := [] }).trace = 1 ∧
    writesB 16 i j (main R { x := x, trace := [] }).trace = 1 := by
  rw [main_events]
  simp only [writesA_append, writesB_append, writesA_policyA, writesB_policyA,
    writesA_policyB, writesB_policyB]
  simp [i.isLt, j.isLt]

theorem mem16_main (R x : Nat) (i j : Fin 16) :
    Event.setA 16 i j (drawNo x (178 * R + 8 + (2 * (i * 16 + j) + 1))) ∈
      (main R { x := x, trace := [] }).trace ∧
    Event.setB 16 i j (drawNo x (178 * R + 8 + (2 * (i * 16 + j) + 2))) ∈
      (main R { x := x, trace := [] }).trace := by
  have hA := mem_fillTrace 16 (advance x (8 + 178 * R)) i j i.isLt j.isLt
    (Event.setA 16 i j (drawNo (advance x (8 + 178 * R)) (2 * (i * 16 + j) + 1)))
    (by simp [cellEvents])
  have hB := mem_fillTrace 16 (advance x (8 + 178 * R)) i j i.isLt j.isLt
    (Event.setB 16 i j (drawNo (advance x (8 + 178 * R)) (2 * (i * 16 + j) + 2)))
    (by simp [cellEvents])
  have eA : drawNo (advance x (8 + 178 * R)) (2 * (i * 16 + j) + 1) =
      drawNo x (178 * R + 8 + (2 * (i * 16 + j) + 1)) := by
    rw [drawNo_advance, Nat.add_comm 8 (178 * R), Nat.add_assoc (178 * R + 8)]
  have eB : drawNo (advance x (8 + 178 * R)) (2 * (i * 16 + j) + 2) =
      drawNo x (178 * R + 8 + (2 * (i * 16 + j) + 2)) := by
    rw [drawNo_advance _ _ (2 * (i * 16 + j) + 1), Nat.add_comm 8 (178 * R),
      Nat.add_assoc (178 * R + 8)]
  rw [eA] at hA
  rw [eB] at hB
  rw [main_events]
  have sub : ∀ e, e ∈ fillTrace 16 (advance x (8 + 178 * R)) →
      e ∈ policyATrace 2 R x ++
        (policyBTrace 3 R (advance x 8) ++
          (policyBTrace 4 R (advance x (8 + 18 * R)) ++
            (policyBTrace 8 R (advance x (8 + 50 * R)) ++
              policyATrace 16 R (advance x (8 + 178 * R))))) := by
    intro e he
    apply List.mem_append_right
    apply List.mem_append_right
    apply List.mem_append_right
    apply List.mem_append_right
    unfold policyATrace
    apply List.mem_append_left
    apply List.mem_append_left
    apply List.mem_append_left
    exact he
  exact ⟨sub _ hA, sub _ hB⟩

/-- C10: a full run with repetition count `R`, started from the zero state, makes exactly
`520 + 178 * R` generator draws in one ordered sequence (8 in the 2x2 section, `18 * R`,
`32 * R` and `128 * R` in the 3x3, 4x4 and 8x8 sections, 512 in the 16x16 section; 178,000,520
for `R = 1,000,000`). The final state is `((520 + 178 * R) * 0x9E3779B97F4A7C15) mod 2^64` and
every cell of the 16x16 matrices is assigned once, from draws number `178 * R + 9` through
`178 * R + 520`. -/
theorem C10_run_draw_count (R : Nat) :
    (main R initState).trace =
      eventsOf (section2 R) x0 ++
        (eventsOf (section3 R) (advance x0 8) ++
          (eventsOf (section4 R) (advance x0 (8 + 18 * R)) ++
            (eventsOf (section8 R) (advance x0 (8 + 50 * R)) ++
              eventsOf (section16 R) (advance x0 (8 + 178 * R))))) ∧
    (∀ y, (drawsOf (eventsOf (section2 R) y)).length = 8 ∧
      (drawsOf (eventsOf (section3 R) y)).length = 18 * R ∧
      (drawsOf (eventsOf (section4 R) y)).length = 32 * R ∧
      (drawsOf (eventsOf (section8 R) y)).length = 128 * R ∧
      (drawsOf (eventsOf (section16 R) y)).length = 512) ∧
    drawsOf (main R initState).trace = (drawSeq (520 + 178 * R) x0).1 ∧
    (drawsOf (main R initState).trace).length = 520 + 178 * R ∧
    520 + 178 * reps = 178000520 ∧
    (main R initState).x = ((520 + 178 * R) * 0x9E3779B97F4A7C15) % 2 ^ 64 ∧
    (∀ i j : Fin 16,
      writesA 16 i j (main R initState).trace = 1 ∧
      writesB 16 i j (main R initState).trace = 1 ∧
      Event.setA 16 i j (drawNo x0 (178 * R + 8 + (2 * (i * 16 + j) + 1))) ∈
        (main R initState).trace ∧
      Event.setB 16 i j (drawNo x0 (178 * R + 8 + (2 * (i * 16 + j) + 2))) ∈
        (main R initState).trace ∧
      178 * R + 9 ≤ 178 * R + 8 + (2 * (i * 16 + j) + 1) ∧
      178 * R + 8 + (2 * (i * 16 + j) + 2) ≤ 178 * R + 520) := by
  have hinit : initState = { x := x0, trace := [] } := rfl
  rw [hinit]
  refine ⟨main_trace R x0, ?_, drawsOf_main R x0, ?_, rfl, ?_, ?_⟩
  · intro y
    rw [(drawsOf_sections R y).1, (drawsOf_sections R y).2.1, (drawsOf_sections R y).2.2.1,
      (drawsOf_sections R y).2.2.2.1, (drawsOf_sections R y).2.2.2.2]
    simp only [drawSeq_length, and_self]
  · rw [drawsOf_main, drawSeq_length]
  · rw [main_final, advance_closed x0 _ (by decide), show x0 = 0 from rfl, Nat.zero_add]
  · intro i j
    have hi := i.isLt
    have hj := j.isLt
    exact ⟨(writes16_main R x0 i j).1, (writes16_main R x0 i j).2, (mem16_main R x0 i j).1,
      (mem16_main R x0 i j).2, by omega, by omega⟩

end MojoSci
